import Mathlib

/-!
Shallow embedding of `src/parsing.py`, a parser-combinator library.

A Python string is modelled as a `List Char` (`Str` below).  A parser in the
source is a Python function `string -> (result, rest) | None`; exceptions can
escape a parser call (the source has one `try/except`, inside
`Combinators.after`), and `Combinators.many` contains a `while` loop that need
not terminate, so a parser invocation is modelled as a function
`Str → Nat → POut` where the `Nat` is step fuel for the repetition loops and
`POut` distinguishes the three real outcomes (`ok`, `fail` = Python `None`,
`exn` = an uncaught Python exception) from `out` (fuel exhausted — an artifact
of the embedding that stands for "the source has not yet returned within that
many loop iterations"; a parser whose every invocation is `out` at every fuel
diverges in the source).

Python result values flowing through processors are dynamically typed; the
values this library produces are strings, ints, tuples and `None`, modelled by
`PyVal`.  A result processor is a Python function that returns a value or
raises; it is modelled as `PyVal → Except PyErr PyVal`.
-/

/-- A Python `str`, modelled as its list of characters. -/
abbrev Str := List Char

/-- The Python exception classes that the modelled code can raise. -/
inductive PyErr where
  | typeError
  | valueError
  | userError
deriving DecidableEq, Repr

/-- The dynamically-typed Python values produced by parsers and processors in
`src/parsing.py`: strings, integers, tuples and `None`. -/
inductive PyVal where
  | str (s : Str)
  | int (n : Int)
  | tup (l : List PyVal)
  | none
deriving Repr, Inhabited

/-- Outcome of invoking a parser on an input with a given amount of loop fuel.
`ok v rest` embeds the source's `return result, rest`; `fail` embeds
`return None`; `exn e` an uncaught exception escaping the call; `out` means the
repetition loops did not finish within the given fuel. -/
inductive POut where
  | ok (v : PyVal) (rest : Str)
  | fail
  | exn (e : PyErr)
  | out
deriving Repr, Inhabited

/-- A parser: Python `func(string) -> tuple(result, rest) or None`, with step
fuel for the repetition loops added by the embedding. -/
abbrev Parser := Str → Nat → POut

/-- A result processor: Python `func(results) -> result`, which may raise. -/
abbrev ResultProc := PyVal → Except PyErr PyVal

mutual

/-- Python `repr()` restricted to `PyVal` (string escaping simplified: quotes
inside strings are not escaped; no claim evaluates `repr` on such a string). -/
def pyRepr : PyVal → Str
  | .str s => '\'' :: s ++ ['\'']
  | .int n => (toString n).toList
  | .none => "None".toList
  | .tup [] => "()".toList
  | .tup [v] => '(' :: pyRepr v ++ ",)".toList
  | .tup (v :: w :: l) => '(' :: pyRepr v ++ pyReprRest (w :: l) ++ [')']

/-- `", " ++ repr v` for each tuple element after the first. -/
def pyReprRest : List PyVal → Str
  | [] => []
  | v :: l => ", ".toList ++ pyRepr v ++ pyReprRest l

end

/-- Python `str()` on a `PyVal`: identity on strings, `repr` otherwise. -/
def pyStr : PyVal → Str
  | .str s => s
  | v => pyRepr v

/-- Python `s.isdigit()` (ASCII approximation): nonempty and all digits. -/
def pyIsDigit (s : Str) : Bool := !s.isEmpty && s.all Char.isDigit

/-- Python `s.isalpha()` (ASCII approximation): nonempty and all letters. -/
def pyIsAlpha (s : Str) : Bool := !s.isEmpty && s.all Char.isAlpha

/-- Python `s.isspace()` (ASCII approximation): nonempty and all whitespace. -/
def pyIsSpace (s : Str) : Bool := !s.isEmpty && s.all Char.isWhitespace

/-- The index at which Python's slice pair `s[:n]` / `s[n:]` splits a string of
length `len`: negative `n` counts from the end, clamped at 0; nonnegative `n`
is clamped at `len`. -/
def pySplitIdx (len : Nat) (n : Int) : Nat :=
  if n < 0 then len - min len n.natAbs else min n.toNat len

namespace ResultProcessors

/-- `ResultProcessors.doNothing`: returns exactly what was given. -/
def doNothing : ResultProc := fun rs => .ok rs

/-- `ResultProcessors.concat`: `''.join(str(r) for r in rs)`.  Iterating a
tuple yields its elements; iterating a string yields its characters (so the
join reproduces the string); iterating an int or `None` raises `TypeError`. -/
def concat : ResultProc := fun rs =>
  match rs with
  | .str s => .ok (.str s)
  | .tup l => .ok (.str (l.map pyStr).flatten)
  | _ => .error .typeError

/-- The elements of `l` whose position is listed in `indexes`
(`rs[i] for i in range(len(rs)) if i in indexes`): positions outside
`0 ≤ i < len` are simply never considered by the loop. -/
def takeSelect (indexes : List Int) (l : List PyVal) : List PyVal :=
  (l.enum.filter (fun p => (p.1 : Int) ∈ indexes)).map (fun p => p.2)

/-- Python `if len(result) == 1: result = result[0]` unwrapping. -/
def takeUnwrap : List PyVal → PyVal
  | [v] => v
  | l => .tup l

/-- `ResultProcessors.take(*indexes)`, i.e. the returned `fromProcTake`: keeps
only the elements of `rs` at the listed positions, unwrapped when exactly one
is kept.  `len(rs)`/`rs[i]` work on tuples and strings (indexing a string
yields a one-character string); on an int or `None`, `len()` raises
`TypeError`.  An out-of-range index never causes `rs[i]` to be evaluated,
because `i` only ranges over `range(len(rs))`. -/
def take (indexes : List Int) : ResultProc := fun rs =>
  match rs with
  | .tup l => .ok (takeUnwrap (takeSelect indexes l))
  | .str s => .ok (takeUnwrap (takeSelect indexes (s.map (fun c => PyVal.str [c]))))
  | _ => .error .typeError

end ResultProcessors

namespace PrimitiveParsers

/-- `PrimitiveParsers.byFunc(f)`, i.e. the returned `fromByFunc`:
`c, rest = string[:1], string[1:]; if f(c): return c, rest`.  Note that on
empty input `c` is the empty string and `f` is applied to it. -/
def byFunc (f : Str → Bool) : Parser := fun string _ =>
  let c := string.take 1
  let rest := string.drop 1
  if f c then .ok (.str c) rest else .fail

/-- `PrimitiveParsers.digit`: `byFunc(lambda c: c.isdigit())`. -/
def digit : Parser := byFunc (fun c => pyIsDigit c)

/-- `PrimitiveParsers.letter`: `byFunc(lambda c: c.isalpha())`. -/
def letter : Parser := byFunc (fun c => pyIsAlpha c)

/-- `PrimitiveParsers.nonWhitespace`: `byFunc(lambda c: not c.isspace() and c != '')`. -/
def nonWhitespace : Parser := byFunc (fun c => !pyIsSpace c && !c.isEmpty)

/-- `PrimitiveParsers.whitespace`: `byFunc(lambda c: c.isspace())`. -/
def whitespace : Parser := byFunc (fun c => pyIsSpace c)

/-- `PrimitiveParsers.char(c)`: `byFunc(lambda ic: ic == c)` (`c` is a Python
string, normally of length one). -/
def char (c : Str) : Parser := byFunc (fun ic => ic == c)

/-- `PrimitiveParsers.notChar(c)`: `byFunc(lambda ic: ic != c and ic != '')`. -/
def notChar (c : Str) : Parser := byFunc (fun ic => ic != c && !ic.isEmpty)

/-- `PrimitiveParsers.take(n)`, i.e. the returned `fromTake`:
`if len(string) >= n: return string[:n], string[n:]`.  `n` is an `int` and may
be negative, in which case the guard always holds and the Python slices count
from the end of the string. -/
def take (n : Int) : Parser := fun string _ =>
  if n ≤ (string.length : Int) then
    let k := pySplitIdx string.length n
    .ok (.str (string.take k)) (string.drop k)
  else .fail

/-- `PrimitiveParsers.reg(pattern)`, i.e. the returned `fromReg`.  The regex
engine is an external collaborator, abstracted as `matcher`, which returns
`(m.start(), m.end())` of the match of `pattern` against `string` (or `none`
when `re.match` returns `None`); the source then returns
`string[m.start():m.end()], string[m.end():]`. -/
def reg (matcher : Str → Option (Nat × Nat)) : Parser := fun string _ =>
  match matcher string with
  | some (st, en) => .ok (.str ((string.drop st).take (en - st))) (string.drop en)
  | none => .fail

end PrimitiveParsers

namespace Combinators

/-- `Combinators.after(parser, proc)`, i.e. the returned `fromAfter`: runs
`parser`; on `None`, falls through to `None`; an exception from `parser`
propagates (the `try` only wraps the processor call).  On success,
`proc(result)` is run inside `try/except`: a raised exception or a returned
`None` both become `None`; otherwise `(processed, rest)` is returned. -/
def after (parser : Parser) (proc : ResultProc) : Parser := fun string fuel =>
  match parser string fuel with
  | .ok result rest =>
    match proc result with
    | .ok PyVal.none => .fail
    | .ok processed => .ok processed rest
    | .error _ => .fail
  | r => r

/-- The `for p in parsers` loop of `fromChain` (inside `Combinators.chain`):
threads `rest` through the parsers, accumulating `results`; any sub-parser
`None` aborts with `None`; an exception propagates; after the loop, an empty
`results` tuple yields `None`, otherwise `(results, rest)`. -/
def chainGo (fuel : Nat) : List Parser → List PyVal → Str → POut
  | [], results, rest => if results.isEmpty then .fail else .ok (.tup results) rest
  | p :: ps, results, rest =>
    match p rest fuel with
    | .ok result rest' => chainGo fuel ps (results ++ [result]) rest'
    | r => r

/-- The inner function `fromChain` of `Combinators.chain`. -/
def fromChain (parsers : List Parser) : Parser := fun string fuel =>
  chainGo fuel parsers [] string

/-- `Combinators.chain(*parsers, proc)`: `after(fromChain, proc)`. -/
def chain (parsers : List Parser) (proc : ResultProc) : Parser :=
  after (fromChain parsers) proc

/-- A Python object occurring in parser position inside `fromChain`'s loop:
either an actual parser function, or a non-callable object (such as a
generator), for which the call `p(rest)` raises `TypeError`. -/
inductive PyParserArg where
  | fn (p : Parser)
  | genObj

/-- Calling a `PyParserArg` as a parser: a function is invoked; calling a
generator object raises `TypeError` at once. -/
def callParserArg : PyParserArg → Parser
  | .fn p => p
  | .genObj => fun _ _ => .exn .typeError

/-- `Combinators.chainIsw(*parsers, proc)`:
`chain((PrebuiltParsers.isw(p) for p in parsers), proc)`.  Both arguments to
`chain` are positional, so `chain` receives the generator expression as its
first parser and `proc` as its second parser, while `chain`'s own `proc`
keyword keeps its default `concat`.  The generator is lazy and is never
iterated (so `parsers`, and `isw`, are never touched), and invoking the
produced parser calls the generator object first, which is not callable;
whatever calling `proc` in parser position would later do is irrelevant and is
abstracted as `procAsParser`. -/
def chainIsw (_parsers : List Parser) (_proc : ResultProc) (procAsParser : Parser) : Parser :=
  chain [callParserArg .genObj, callParserArg (.fn procAsParser)] ResultProcessors.concat

/-- The `while pr is not None` loop of `fromMany` (inside `Combinators.many`),
with the embedding's fuel bounding the number of iterations.  On sub-parser
failure the loop stops: an empty `results` yields `None`, otherwise
`(results, rest)` where `rest` came from the last success (i.e. the current
position).  A sub-parser exception propagates. -/
def manyGo (parser : Parser) : Nat → List PyVal → Str → POut
  | 0, _, _ => .out
  | fuel + 1, results, s =>
    match parser s fuel with
    | .fail => if results.isEmpty then .fail else .ok (.tup results) s
    | .ok result rest => manyGo parser fuel (results ++ [result]) rest
    | r => r

/-- The inner function `fromMany` of `Combinators.many`. -/
def fromMany (parser : Parser) : Parser := fun string fuel =>
  manyGo parser fuel [] string

/-- `Combinators.many(parser, proc)`: `after(fromMany, proc)`. -/
def many (parser : Parser) (proc : ResultProc) : Parser :=
  after (fromMany parser) proc

/-- `Combinators.maybe(parser)`, i.e. the returned `fromMaybe`: on `None`,
returns `('', string)`; otherwise returns what `parser` returned. -/
def maybe (parser : Parser) : Parser := fun string fuel =>
  match parser string fuel with
  | .fail => .ok (.str []) string
  | r => r

/-- `Combinators.manyOrNone(parser, proc)`: `maybe(many(parser, proc))`. -/
def manyOrNone (parser : Parser) (proc : ResultProc) : Parser :=
  maybe (many parser proc)

/-- The `for p in parsers` loop of `fromChoice` (inside `Combinators.choice`):
returns the first non-`None` result; falls through to `None` when all fail; an
exception propagates. -/
def choiceGo : List Parser → Parser
  | [] => fun _ _ => .fail
  | p :: ps => fun string fuel =>
    match p string fuel with
    | .fail => choiceGo ps string fuel
    | r => r

/-- `Combinators.choice(*parsers)`, i.e. the returned `fromChoice`. -/
def choice (parsers : List Parser) : Parser := choiceGo parsers

/-- `Combinators.ignore(parser)`, i.e. the returned `fromIgnore`: on `None`,
returns `('', string)`; on success `pr`, returns `('', pr[1])`. -/
def ignore (parser : Parser) : Parser := fun string fuel =>
  match parser string fuel with
  | .fail => .ok (.str []) string
  | .ok _ rest => .ok (.str []) rest
  | r => r

/-- `Combinators.whole(parser)`, i.e. the returned `fromWhole`: returns the
result only when it is a success with empty remainder (`result[1] == ''`). -/
def whole (parser : Parser) : Parser := fun string fuel =>
  match parser string fuel with
  | .ok v rest => if rest.isEmpty then .ok v rest else .fail
  | .fail => .fail
  | r => r

/-- Outcome of a parser wrapped by `Combinators.conclude`, which returns the
bare result and drops the remainder. -/
inductive COut where
  | ok (v : PyVal)
  | fail
  | exn (e : PyErr)
  | out
deriving Repr

/-- `Combinators.conclude(parser)`, i.e. the returned `fromConclude`: on
success `pr`, returns `pr[0]` only; on `None`, `None`. -/
def conclude (parser : Parser) : Str → Nat → COut := fun string fuel =>
  match parser string fuel with
  | .ok v _ => .ok v
  | .fail => .fail
  | .exn e => .exn e
  | .out => .out

end Combinators

/-- A parser is suffix-sound when every successful outcome's remainder is a
suffix of the input it was given. -/
def SuffixSound (p : Parser) : Prop :=
  ∀ s fuel v r, p s fuel = POut.ok v r → r <:+ s

/-- A parser invocation diverges when it has not returned within `fuel` loop
iterations for any `fuel`: the source's `while` loop runs forever. -/
def DivergesAt (p : Parser) (s : Str) : Prop :=
  ∀ fuel, p s fuel = POut.out

/-- A parser consumes at least one character on every success. -/
def Consuming (p : Parser) : Prop :=
  ∀ s fuel v r, p s fuel = POut.ok v r → r.length < s.length

/-- A parser is fuel-free when no invocation runs out of fuel (true of every
parser in the development that contains no repetition loop). -/
def NeverOut (p : Parser) : Prop :=
  ∀ s fuel, p s fuel ≠ POut.out

namespace PrimitiveParsers

theorem byFunc_suffixSound (f : Str → Bool) : SuffixSound (byFunc f) := by
  intro s fuel v r h
  simp only [byFunc] at h
  split at h
  · cases h
    exact List.drop_suffix 1 s
  · cases h

theorem byFunc_notOut (f : Str → Bool) : NeverOut (byFunc f) := by
  intro s fuel h
  simp only [byFunc] at h
  split at h <;> cases h

theorem byFunc_consuming (f : Str → Bool) (hf : f [] = false) :
    Consuming (byFunc f) := by
  intro s fuel v r h
  cases s with
  | nil => simp [byFunc, hf] at h
  | cons c t =>
    simp only [byFunc] at h
    split at h
    · cases h; simp
    · cases h

theorem digit_consuming : Consuming digit :=
  byFunc_consuming _ rfl

theorem digit_notOut : NeverOut digit :=
  byFunc_notOut _

theorem take_suffixSound (n : Int) : SuffixSound (take n) := by
  intro s fuel v r h
  simp only [take] at h
  split at h
  · cases h
    exact List.drop_suffix _ s
  · cases h

theorem reg_suffixSound (matcher : Str → Option (Nat × Nat)) :
    SuffixSound (reg matcher) := by
  intro s fuel v r h
  simp only [reg] at h
  split at h
  · cases h
    exact List.drop_suffix _ s
  · cases h

end PrimitiveParsers


namespace Combinators

theorem after_suffixSound (p : Parser) (proc : ResultProc) (hp : SuffixSound p) :
    SuffixSound (after p proc) := by
  intro s fuel v r h
  cases heq : p s fuel with
  | ok v' r' =>
    simp only [after, heq] at h
    split at h
    · cases h
    · cases h
      exact hp s fuel v' r heq
    · cases h
  | fail => simp [after, heq] at h
  | exn e => simp [after, heq] at h
  | out => simp [after, heq] at h

theorem after_notOut (p : Parser) (proc : ResultProc) (hp : NeverOut p) :
    NeverOut (after p proc) := by
  intro s fuel h
  cases heq : p s fuel with
  | ok v' r' =>
    simp only [after, heq] at h
    split at h <;> cases h
  | fail => simp [after, heq] at h
  | exn e => simp [after, heq] at h
  | out => exact hp s fuel heq

theorem after_ne_ok_none (p : Parser) (proc : ResultProc) (s : Str) (fuel : Nat)
    (r : Str) : after p proc s fuel ≠ POut.ok PyVal.none r := by
  intro h
  cases heq : p s fuel with
  | ok v' r' =>
    simp only [after, heq] at h
    split at h
    · cases h
    · rename_i hnn _
      injection h with h1 _
      exact hnn h1
    · cases h
  | fail => simp [after, heq] at h
  | exn e => simp [after, heq] at h
  | out => simp [after, heq] at h

theorem chainGo_suffix (fuel : Nat) (ps : List Parser) (hps : ∀ p ∈ ps, SuffixSound p) :
    ∀ (acc : List PyVal) (s : Str) (v : PyVal) (r : Str),
      chainGo fuel ps acc s = POut.ok v r → r <:+ s := by
  induction ps with
  | nil =>
    intro acc s v r h
    simp only [chainGo] at h
    split at h
    · cases h
    · cases h
      exact List.suffix_refl s
  | cons p ps ih =>
    intro acc s v r h
    cases heq : p s fuel with
    | ok v' r' =>
      simp only [chainGo, heq] at h
      have h1 : r' <:+ s := hps p (List.mem_cons_self p ps) s fuel v' r' heq
      have h2 : r <:+ r' := ih (fun q hq => hps q (List.mem_cons_of_mem p hq)) _ r' v r h
      exact h2.trans h1
    | fail => simp [chainGo, heq] at h
    | exn e => simp [chainGo, heq] at h
    | out => simp [chainGo, heq] at h

theorem chain_suffixSound (ps : List Parser) (proc : ResultProc)
    (hps : ∀ p ∈ ps, SuffixSound p) : SuffixSound (chain ps proc) := by
  apply after_suffixSound
  intro s fuel v r h
  exact chainGo_suffix fuel ps hps [] s v r h

theorem manyGo_suffix (p : Parser) (hp : SuffixSound p) :
    ∀ (fuel : Nat) (acc : List PyVal) (s : Str) (v : PyVal) (r : Str),
      manyGo p fuel acc s = POut.ok v r → r <:+ s := by
  intro fuel
  induction fuel with
  | zero => intro acc s v r h; cases h
  | succ n ih =>
    intro acc s v r h
    cases heq : p s n with
    | ok v' r' =>
      simp only [manyGo, heq] at h
      have h1 : r' <:+ s := hp s n v' r' heq
      exact (ih _ r' v r h).trans h1
    | fail =>
      simp only [manyGo, heq] at h
      split at h
      · cases h
      · cases h
        exact List.suffix_refl s
    | exn e => simp [manyGo, heq] at h
    | out => simp [manyGo, heq] at h

theorem many_suffixSound (p : Parser) (proc : ResultProc) (hp : SuffixSound p) :
    SuffixSound (many p proc) := by
  apply after_suffixSound
  intro s fuel v r h
  exact manyGo_suffix p hp fuel [] s v r h

theorem maybe_suffixSound (p : Parser) (hp : SuffixSound p) :
    SuffixSound (maybe p) := by
  intro s fuel v r h
  cases heq : p s fuel with
  | ok v' r' =>
    simp only [maybe, heq] at h
    cases h
    exact hp s fuel _ _ heq
  | fail =>
    simp only [maybe, heq] at h
    cases h
    exact List.suffix_refl s
  | exn e => simp [maybe, heq] at h
  | out => simp [maybe, heq] at h

theorem manyOrNone_suffixSound (p : Parser) (proc : ResultProc) (hp : SuffixSound p) :
    SuffixSound (manyOrNone p proc) :=
  maybe_suffixSound _ (many_suffixSound p proc hp)

theorem choiceGo_suffix (ps : List Parser) (hps : ∀ p ∈ ps, SuffixSound p) :
    SuffixSound (choiceGo ps) := by
  induction ps with
  | nil => intro s fuel v r h; cases h
  | cons p ps ih =>
    intro s fuel v r h
    cases heq : p s fuel with
    | ok v' r' =>
      simp only [choiceGo, heq] at h
      cases h
      exact hps p (List.mem_cons_self p ps) s fuel _ _ heq
    | fail =>
      simp only [choiceGo, heq] at h
      exact ih (fun q hq => hps q (List.mem_cons_of_mem p hq)) s fuel v r h
    | exn e => simp [choiceGo, heq] at h
    | out => simp [choiceGo, heq] at h

theorem choice_suffixSound (ps : List Parser) (hps : ∀ p ∈ ps, SuffixSound p) :
    SuffixSound (choice ps) :=
  choiceGo_suffix ps hps

theorem ignore_suffixSound (p : Parser) (hp : SuffixSound p) :
    SuffixSound (ignore p) := by
  intro s fuel v r h
  cases heq : p s fuel with
  | ok v' r' =>
    simp only [ignore, heq] at h
    cases h
    exact hp s fuel _ _ heq
  | fail =>
    simp only [ignore, heq] at h
    cases h
    exact List.suffix_refl s
  | exn e => simp [ignore, heq] at h
  | out => simp [ignore, heq] at h

theorem whole_suffixSound (p : Parser) : SuffixSound (whole p) := by
  intro s fuel v r h
  cases heq : p s fuel with
  | ok v' r' =>
    simp only [whole, heq] at h
    split at h
    · cases h
      rename_i hr
      simp only [List.isEmpty_iff] at hr
      exact hr ▸ List.nil_suffix
    · cases h
  | fail => simp [whole, heq] at h
  | exn e => simp [whole, heq] at h
  | out => simp [whole, heq] at h

end Combinators

namespace Combinators

theorem maybe_ne_fail (p : Parser) (s : Str) (fuel : Nat) :
    maybe p s fuel ≠ POut.fail := by
  intro h
  cases heq : p s fuel <;> simp [maybe, heq] at h

theorem maybe_notOut (p : Parser) (hp : NeverOut p) : NeverOut (maybe p) := by
  intro s fuel h
  cases heq : p s fuel with
  | out => exact hp s fuel heq
  | ok v r => simp [maybe, heq] at h
  | fail => simp [maybe, heq] at h
  | exn e => simp [maybe, heq] at h

/-- If `p` succeeds on `s` without consuming anything — whatever the fuel —
then the `while` loop of `fromMany` never exits: it repeats the same call at
the same position forever. -/
theorem manyGo_nonConsuming_out (p : Parser) (s : Str) (v : PyVal)
    (hp : ∀ fuel, p s fuel = POut.ok v s) :
    ∀ (fuel : Nat) (acc : List PyVal), manyGo p fuel acc s = POut.out := by
  intro fuel
  induction fuel with
  | zero => intro acc; rfl
  | succ n ih =>
    intro acc
    simp only [manyGo, hp n]
    exact ih _

/-- With a repeated parser that consumes on every success (and never runs out
of fuel itself), the `while` loop of `fromMany` exits within `len(s) + 1`
iterations. -/
theorem manyGo_consuming_notOut (p : Parser) (hc : Consuming p) (ho : NeverOut p) :
    ∀ (fuel : Nat) (s : Str) (acc : List PyVal), s.length < fuel →
      manyGo p fuel acc s ≠ POut.out := by
  intro fuel
  induction fuel with
  | zero => intro s acc hlen; omega
  | succ n ih =>
    intro s acc hlen h
    cases heq : p s n with
    | ok v r =>
      simp only [manyGo, heq] at h
      have hr : r.length < s.length := hc s n v r heq
      exact ih r (acc ++ [v]) (by omega) h
    | fail =>
      simp only [manyGo, heq] at h
      split at h <;> cases h
    | exn e => simp [manyGo, heq] at h
    | out => exact ho s n heq

end Combinators

/-- Claim C1, counterexample.  The claim states that `byPredicate(pred)`
applied to the empty input always fails and the predicate is never applied to
an empty character.  In `fromByFunc`, `c = string[:1]` is the empty string on
empty input, `f` IS applied to it, and with the always-true predicate the
parser SUCCEEDS on empty input, returning the empty string as both value and
remainder. -/
theorem C1_cex :
    PrimitiveParsers.byFunc (fun _ => true) [] 0 = POut.ok (PyVal.str []) [] ∧
    PrimitiveParsers.byFunc (fun _ => true) [] 0 ≠ POut.fail :=
  ⟨rfl, fun h => POut.noConfusion h⟩

/-- Claim C1, amended: on empty input, `byFunc(f)` applies `f` to the empty
string and fails exactly when `f('')` is false; every named character-predicate
primitive of the library (`digit`, `letter`, `whitespace`, `nonWhitespace`,
`notChar(c)`, and `char(c)` for nonempty `c`) rejects the empty string, so
those do fail on empty input. -/
theorem C1_byFunc_empty (f : Str → Bool) (fuel : Nat) :
    PrimitiveParsers.byFunc f [] fuel =
      (if f [] then POut.ok (PyVal.str []) [] else POut.fail) ∧
    PrimitiveParsers.digit [] fuel = POut.fail ∧
    PrimitiveParsers.letter [] fuel = POut.fail ∧
    PrimitiveParsers.whitespace [] fuel = POut.fail ∧
    PrimitiveParsers.nonWhitespace [] fuel = POut.fail ∧
    (∀ c, PrimitiveParsers.notChar c [] fuel = POut.fail) ∧
    (∀ c, c ≠ [] → PrimitiveParsers.char c [] fuel = POut.fail) := by
  refine ⟨rfl, rfl, rfl, rfl, rfl, fun c => ?_, fun c hc => ?_⟩
  · simp [PrimitiveParsers.notChar, PrimitiveParsers.byFunc]
  · simp only [PrimitiveParsers.char, PrimitiveParsers.byFunc]
    have : (([] : Str) == c) = false := by
      cases c with
      | nil => exact absurd rfl hc
      | cons a t => rfl
    simp [this]

/-- Claim C1, witness for the amended theorem at a concrete predicate and a
concrete nonempty `c`. -/
theorem C1_witness :
    PrimitiveParsers.byFunc (fun c => pyIsDigit c) [] 3 =
      (if pyIsDigit [] then POut.ok (PyVal.str []) [] else POut.fail) ∧
    (['x'] : Str) ≠ [] ∧
    PrimitiveParsers.char ['x'] [] 3 = POut.fail :=
  ⟨(C1_byFunc_empty (fun c => pyIsDigit c) 3).1, fun h => List.noConfusion h,
    ((C1_byFunc_empty (fun c => pyIsDigit c) 3).2.2.2.2.2.2 ['x'] (fun h => List.noConfusion h))⟩

/-- Claim C2, counterexample.  The claim states that for every processor
`proc`, zero matches yields `proc` applied to an empty sequence.  With
`proc = doNothing` and `digit` failing immediately on empty input,
`manyOrNone` (i.e. `repeat0`) yields the empty STRING `''` (the designated
empty value of `maybe`), not `doNothing(()) = ()` (the empty tuple): the
processor is never applied on the zero-match path. -/
theorem C2_cex :
    Combinators.manyOrNone PrimitiveParsers.digit ResultProcessors.doNothing [] 1 =
      POut.ok (PyVal.str []) [] ∧
    ResultProcessors.doNothing (PyVal.tup []) = Except.ok (PyVal.tup []) ∧
    PyVal.str [] ≠ PyVal.tup [] :=
  ⟨rfl, rfl, fun h => PyVal.noConfusion h⟩

/-- Claim C2, amended: `manyOrNone(p, proc)` (i.e. `repeat0`) never returns
`Failure`, whatever the parser, the processor, the input and the fuel; and when
`p` fails immediately on `s` (zero matches), the produced value is the empty
string — which for the default `concat` processor coincides with the processor
applied to an empty sequence, but is produced by `maybe` without invoking
`proc` — and the remainder is the original `s` unchanged. -/
theorem C2_manyOrNone (p : Parser) (proc : ResultProc) (s : Str) (fuel : Nat) :
    Combinators.manyOrNone p proc s fuel ≠ POut.fail ∧
    (p s fuel = POut.fail →
      Combinators.manyOrNone p proc s (fuel + 1) = POut.ok (PyVal.str []) s) := by
  constructor
  · exact Combinators.maybe_ne_fail _ s fuel
  · intro h
    simp [Combinators.manyOrNone, Combinators.many, Combinators.maybe,
      Combinators.after, Combinators.fromMany, Combinators.manyGo, h]

/-- Claim C2, witness: `digit` fails immediately on `"a"`, and `repeat0(digit)`
with the `doNothing` processor succeeds there with the empty string and the
untouched remainder. -/
theorem C2_witness :
    PrimitiveParsers.digit ['a'] 0 = POut.fail ∧
    Combinators.manyOrNone PrimitiveParsers.digit ResultProcessors.doNothing ['a'] 1 =
      POut.ok (PyVal.str []) ['a'] :=
  ⟨rfl, (C2_manyOrNone PrimitiveParsers.digit ResultProcessors.doNothing ['a'] 0).2 rfl⟩

/-- Claim C3, counterexample.  The claim states that an out-of-range index to
`ResultProcessors.take` and a negative count to `PrimitiveParsers.take` fail
loudly (raise) when used.  Neither does: `fromProcTake` with index 5 on a
2-tuple silently returns the empty tuple (the loop index never reaches 5), and
`fromTake` with `n = -1` on `"ab"` silently succeeds, returning `"a"` with
remainder `"b"` by Python slice semantics (no exception in either case). -/
theorem C3_cex :
    ResultProcessors.take [5] (PyVal.tup [PyVal.str ['a'], PyVal.str ['b']]) =
      Except.ok (PyVal.tup []) ∧
    PrimitiveParsers.take (-1) ['a', 'b'] 0 = POut.ok (PyVal.str ['a']) ['b'] := by
  constructor
  · rfl
  · rfl

/-- Claim C3, amended: malformed arguments are accepted silently rather than
loudly.  `ResultProcessors.take` applied to any tuple returns a value for any
index list (out-of-range indexes are skipped by the `range(len(rs))` loop, so
no exception is ever raised), and `PrimitiveParsers.take(n)` with a negative
`n` silently succeeds on every input (the guard `len(string) >= n` always
holds), splitting the input at the Python slice index. -/
theorem C3_silent (indexes : List Int) (l : List PyVal) (n : Int) (s : Str)
    (fuel : Nat) :
    (∃ v, ResultProcessors.take indexes (PyVal.tup l) = Except.ok v) ∧
    (n < 0 → ∃ v r, PrimitiveParsers.take n s fuel = POut.ok v r) := by
  constructor
  · exact ⟨_, rfl⟩
  · intro hn
    have hle : n ≤ (s.length : Int) := le_trans hn.le (Int.natCast_nonneg _)
    exact ⟨.str (s.take (pySplitIdx s.length n)), s.drop (pySplitIdx s.length n),
      by simp only [PrimitiveParsers.take, if_pos hle]⟩

/-- Claim C3, witness at the counterexample's inputs. -/
theorem C3_witness :
    (∃ v, ResultProcessors.take [5] (PyVal.tup [PyVal.str ['a'], PyVal.str ['b']]) =
      Except.ok v) ∧
    ((-1 : Int) < 0) ∧
    (∃ v r, PrimitiveParsers.take (-1) ['a', 'b'] 0 = POut.ok v r) :=
  ⟨(C3_silent [5] [PyVal.str ['a'], PyVal.str ['b']] (-1) ['a', 'b'] 0).1, by decide,
    (C3_silent [5] [PyVal.str ['a'], PyVal.str ['b']] (-1) ['a', 'b'] 0).2 (by decide)⟩

/-- Pointwise version of `after_notOut`: if the wrapped parser finished on this
invocation, so does `after`. -/
theorem after_notOut_at (p : Parser) (proc : ResultProc) (s : Str) (fuel : Nat)
    (h : p s fuel ≠ POut.out) : Combinators.after p proc s fuel ≠ POut.out := by
  intro hc
  cases heq : p s fuel with
  | ok v r =>
    simp only [Combinators.after, heq] at hc
    split at hc <;> cases hc
  | fail => simp [Combinators.after, heq] at hc
  | exn e => simp [Combinators.after, heq] at hc
  | out => exact h heq

/-- Pointwise version of `maybe_notOut`. -/
theorem maybe_notOut_at (p : Parser) (s : Str) (fuel : Nat)
    (h : p s fuel ≠ POut.out) : Combinators.maybe p s fuel ≠ POut.out := by
  intro hc
  cases heq : p s fuel with
  | ok v r => simp [Combinators.maybe, heq] at hc
  | fail => simp [Combinators.maybe, heq] at hc
  | exn e => simp [Combinators.maybe, heq] at hc
  | out => exact h heq

/-- Claim C4, counterexample.  The claim states that `repeat1`/`repeat0`
terminate even when the repeated parser can succeed without consuming input,
e.g. `many(maybe(q))`.  They do not: `maybe(char('x'))` succeeds on the empty
input without consuming anything, so the `while pr is not None` loop of
`fromMany` re-runs it at the same position forever — for every fuel bound the
embedded loop is still running (`POut.out`), i.e. the source invocation never
returns. -/
theorem C4_cex :
    DivergesAt
      (Combinators.many (Combinators.maybe (PrimitiveParsers.char ['x']))
        ResultProcessors.concat) [] := by
  intro fuel
  have h : ∀ f, Combinators.maybe (PrimitiveParsers.char ['x']) [] f =
      POut.ok (PyVal.str []) [] := fun f => rfl
  have hgo := Combinators.manyGo_nonConsuming_out _ [] (PyVal.str []) h fuel []
  simp [Combinators.many, Combinators.after, Combinators.fromMany, hgo]

/-- Claim C4, amended: an invocation of `many(p, proc)` or `manyOrNone(p, proc)`
runs to completion (returning success, failure or an uncaught exception, never
exhausting its fuel) whenever the repeated parser consumes at least one
character on every success and itself always finishes, with fuel beyond the
input length; the un-amended claim is refuted by `many(maybe(q))`, which loops
forever once `q` fails (see the counterexample). -/
theorem C4_termination (p : Parser) (proc : ResultProc)
    (hc : Consuming p) (ho : NeverOut p) (s : Str) (fuel : Nat)
    (hfuel : s.length < fuel) :
    Combinators.many p proc s fuel ≠ POut.out ∧
    Combinators.manyOrNone p proc s fuel ≠ POut.out := by
  have hgo : Combinators.manyGo p fuel [] s ≠ POut.out :=
    Combinators.manyGo_consuming_notOut p hc ho fuel s [] hfuel
  have hmany : Combinators.many p proc s fuel ≠ POut.out :=
    after_notOut_at _ proc s fuel hgo
  exact ⟨hmany, maybe_notOut_at _ s fuel hmany⟩

/-- Claim C4, witness: `many(digit)` finishes on `"7"` with fuel 2. -/
theorem C4_witness :
    Combinators.many PrimitiveParsers.digit ResultProcessors.concat ['7'] 2 ≠ POut.out ∧
    Combinators.manyOrNone PrimitiveParsers.digit ResultProcessors.concat ['7'] 2 ≠
      POut.out :=
  C4_termination PrimitiveParsers.digit ResultProcessors.concat
    PrimitiveParsers.digit_consuming PrimitiveParsers.digit_notOut ['7'] 2 (by decide)

/-- Claim C5 (confirmed): `after(p, proc)` fails when `p` fails, without the
processor influencing the outcome (the conclusion holds for every `proc`, and
`proc` is applied only on the success branch of the source); and when `p`
succeeds but the processor raises, the `try/except` turns this into plain
failure — `POut.fail`, not `POut.exn`, so the exception never escapes the
combinator. -/
theorem C5_after_failure (p : Parser) (proc : ResultProc) (s : Str) (fuel : Nat) :
    (p s fuel = POut.fail → Combinators.after p proc s fuel = POut.fail) ∧
    (∀ v r e, p s fuel = POut.ok v r → proc v = Except.error e →
      Combinators.after p proc s fuel = POut.fail) := by
  constructor
  · intro h
    simp [Combinators.after, h]
  · intro v r e h hp
    simp [Combinators.after, h, hp]

/-- Claim C5, witness: `digit` fails on `""` and `after` fails with it; `digit`
succeeds on `"5"` and a raising processor turns the success into `POut.fail`. -/
theorem C5_witness :
    (PrimitiveParsers.digit [] 0 = POut.fail ∧
      Combinators.after PrimitiveParsers.digit ResultProcessors.concat [] 0 =
        POut.fail) ∧
    (PrimitiveParsers.digit ['5'] 0 = POut.ok (PyVal.str ['5']) [] ∧
      Combinators.after PrimitiveParsers.digit (fun _ => Except.error PyErr.userError)
        ['5'] 0 = POut.fail) :=
  ⟨⟨rfl, (C5_after_failure PrimitiveParsers.digit ResultProcessors.concat [] 0).1 rfl⟩,
    ⟨rfl, (C5_after_failure PrimitiveParsers.digit (fun _ => Except.error PyErr.userError)
      ['5'] 0).2 (PyVal.str ['5']) [] PyErr.userError rfl rfl⟩⟩

/-- Claim C7 (confirmed): `choice` tries each alternative in order against the
same original input (every alternative is invoked on the unchanged `s`), fails
exactly when every alternative fails, and returns the outcome of the first
succeeding alternative — so with every parser before `p` failing on `s` and `p`
succeeding, the outcome is exactly `p`'s, whatever comes after `p` in the list;
taking the prefix empty gives left bias: if `p1` succeeds, the result is
`p1`'s even when `p2` would also succeed. -/
theorem C7_choice (s : Str) (fuel : Nat) :
    (∀ ps : List Parser,
      Combinators.choice ps s fuel = POut.fail ↔ ∀ p ∈ ps, p s fuel = POut.fail) ∧
    (∀ (ps1 : List Parser) (p : Parser) (ps2 : List Parser),
      (∀ q ∈ ps1, q s fuel = POut.fail) → (∃ v r, p s fuel = POut.ok v r) →
      Combinators.choice (ps1 ++ p :: ps2) s fuel = p s fuel) := by
  constructor
  · intro ps
    induction ps with
    | nil => simp [Combinators.choice, Combinators.choiceGo]
    | cons q qs ih =>
      simp only [Combinators.choice, Combinators.choiceGo] at ih ⊢
      cases heq : q s fuel with
      | ok v r => simp [heq]
      | fail => simp [heq, ih]
      | exn e => simp [heq]
      | out => simp [heq]
  · intro ps1 p ps2 h1 h2
    induction ps1 with
    | nil =>
      obtain ⟨v, r, hv⟩ := h2
      simp [Combinators.choice, Combinators.choiceGo, hv]
    | cons q qs ih =>
      have hq : q s fuel = POut.fail := h1 q (List.mem_cons_self q qs)
      simp only [List.cons_append, Combinators.choice, Combinators.choiceGo, hq]
      exact ih (fun x hx => h1 x (List.mem_cons_of_mem q hx))

/-- Claim C7, witness: on `"b,c"`, `char('a')` fails and `char('b')` succeeds,
and `choice(char('a'), char('b'))` returns exactly `char('b')`'s outcome. -/
theorem C7_witness :
    Combinators.choice [PrimitiveParsers.char ['a'], PrimitiveParsers.char ['b']]
      ['b', ',', 'c'] 0 = PrimitiveParsers.char ['b'] ['b', ',', 'c'] 0 :=
  (C7_choice ['b', ',', 'c'] 0).2 [PrimitiveParsers.char ['a']]
    (PrimitiveParsers.char ['b']) []
    (fun q hq => by cases hq with | head => rfl | tail _ h => cases h)
    ⟨PyVal.str ['b'], [',', 'c'], rfl⟩

/-- Claim C8 (confirmed): `chain()` applied to zero parsers fails on every
input, with every processor and fuel: the `for` loop body never runs, so
`results` stays empty and `fromChain` returns `None` through the
`len(results) == 0` guard; it never trivially succeeds. -/
theorem C8_chain_empty (proc : ResultProc) (s : Str) (fuel : Nat) :
    Combinators.chain [] proc s fuel = POut.fail := rfl

/-- Claim C9 (confirmed): `chainIsw` passes the generator of wrapped parsers
positionally as `chain`'s first parser and `proc` as its second; invoking the
produced parser calls the generator object, which is not callable, so every
invocation raises `TypeError` (`POut.exn PyErr.typeError`) instead of returning
a parse outcome — whatever the parsers, the processor, the behavior of the
proc object in parser position, the input and the fuel. -/
theorem C9_chainIsw_raises (ps : List Parser) (proc : ResultProc) (pb : Parser)
    (s : Str) (fuel : Nat) :
    Combinators.chainIsw ps proc pb s fuel = POut.exn PyErr.typeError := rfl

/-- Claim C10 (confirmed): in `fromAfter`, `if processed is None: return None`
turns a processor that returns `None` (without raising) into parser failure;
consequently no invocation of `after`, `chain` or `many` (all of which deliver
their value through `fromAfter`) can ever succeed with `None` as its value. -/
theorem C10_none_failure (p : Parser) (proc : ResultProc) (s : Str) (fuel : Nat) :
    (∀ v r, p s fuel = POut.ok v r → proc v = Except.ok PyVal.none →
      Combinators.after p proc s fuel = POut.fail) ∧
    (∀ r, Combinators.after p proc s fuel ≠ POut.ok PyVal.none r) ∧
    (∀ ps r, Combinators.chain ps proc s fuel ≠ POut.ok PyVal.none r) ∧
    (∀ r, Combinators.many p proc s fuel ≠ POut.ok PyVal.none r) := by
  refine ⟨?_, ?_, ?_, ?_⟩
  · intro v r h hp
    simp [Combinators.after, h, hp]
  · intro r
    exact Combinators.after_ne_ok_none p proc s fuel r
  · intro ps r
    exact Combinators.after_ne_ok_none (Combinators.fromChain ps) proc s fuel r
  · intro r
    exact Combinators.after_ne_ok_none (Combinators.fromMany p) proc s fuel r

/-- Claim C10, witness: `digit` succeeds on `"5"`, the constant-`None`
processor returns `None` without raising, and `after` fails. -/
theorem C10_witness :
    PrimitiveParsers.digit ['5'] 0 = POut.ok (PyVal.str ['5']) [] ∧
    (fun _ => Except.ok PyVal.none : ResultProc) (PyVal.str ['5']) =
      Except.ok PyVal.none ∧
    Combinators.after PrimitiveParsers.digit (fun _ => Except.ok PyVal.none) ['5'] 0 =
      POut.fail :=
  ⟨rfl, rfl,
    (C10_none_failure PrimitiveParsers.digit (fun _ => Except.ok PyVal.none) ['5'] 0).1
      (PyVal.str ['5']) [] rfl rfl⟩

/-- Claim C6 (confirmed): every primitive parser is suffix-sound (a successful
outcome's remainder is a suffix of the input, hence no longer than it), and
every combinator except `conclude` (which drops the remainder and is not a
`Parser`) maps suffix-sound parsers to suffix-sound parsers — so every parser
assembled from these primitives and combinators is suffix-sound, by induction
on its construction.  The failure half of the claim is structural in the data
model: `POut.fail`, embedding the source's bare `return None`, carries no
remainder at all. -/
theorem C6_remainder_suffix :
    (∀ f, SuffixSound (PrimitiveParsers.byFunc f)) ∧
    SuffixSound PrimitiveParsers.digit ∧
    SuffixSound PrimitiveParsers.letter ∧
    SuffixSound PrimitiveParsers.whitespace ∧
    SuffixSound PrimitiveParsers.nonWhitespace ∧
    (∀ c, SuffixSound (PrimitiveParsers.char c)) ∧
    (∀ c, SuffixSound (PrimitiveParsers.notChar c)) ∧
    (∀ n, SuffixSound (PrimitiveParsers.take n)) ∧
    (∀ m, SuffixSound (PrimitiveParsers.reg m)) ∧
    (∀ ps proc, (∀ p ∈ ps, SuffixSound p) →
      SuffixSound (Combinators.chain ps proc)) ∧
    (∀ p proc, SuffixSound p → SuffixSound (Combinators.many p proc)) ∧
    (∀ p proc, SuffixSound p → SuffixSound (Combinators.manyOrNone p proc)) ∧
    (∀ p, SuffixSound p → SuffixSound (Combinators.maybe p)) ∧
    (∀ ps, (∀ p ∈ ps, SuffixSound p) → SuffixSound (Combinators.choice ps)) ∧
    (∀ p, SuffixSound p → SuffixSound (Combinators.ignore p)) ∧
    (∀ p proc, SuffixSound p → SuffixSound (Combinators.after p proc)) ∧
    (∀ p, SuffixSound (Combinators.whole p)) ∧
    (∀ ps proc pb, SuffixSound (Combinators.chainIsw ps proc pb)) := by
  refine ⟨PrimitiveParsers.byFunc_suffixSound,
    PrimitiveParsers.byFunc_suffixSound _,
    PrimitiveParsers.byFunc_suffixSound _,
    PrimitiveParsers.byFunc_suffixSound _,
    PrimitiveParsers.byFunc_suffixSound _,
    fun c => PrimitiveParsers.byFunc_suffixSound _,
    fun c => PrimitiveParsers.byFunc_suffixSound _,
    PrimitiveParsers.take_suffixSound,
    PrimitiveParsers.reg_suffixSound,
    Combinators.chain_suffixSound,
    Combinators.many_suffixSound,
    Combinators.manyOrNone_suffixSound,
    Combinators.maybe_suffixSound,
    Combinators.choice_suffixSound,
    Combinators.ignore_suffixSound,
    Combinators.after_suffixSound,
    Combinators.whole_suffixSound,
    fun ps proc pb s fuel v r h => ?_⟩
  cases h

/-- Claim C6, witness: suffix-soundness of two concretely assembled parsers,
obtained by instantiating the closure properties at `digit`. -/
theorem C6_witness :
    SuffixSound (Combinators.maybe PrimitiveParsers.digit) ∧
    SuffixSound (Combinators.chain [PrimitiveParsers.digit] ResultProcessors.concat) := by
  obtain ⟨-, hdig, -, -, -, -, -, -, -, hchain, -, -, hmaybe, -, -, -, -, -⟩ :=
    C6_remainder_suffix
  refine ⟨hmaybe _ hdig, hchain _ _ ?_⟩
  intro p hp
  cases hp with
  | head => exact hdig
  | tail _ h => cases h
